import Mathlib

/-!
Verification of the mark-granularity subsystem of
`src/Storages/MergeTree/MergeTreeIndexGranularity.cpp`.

Machine integers (`size_t`) are modelled as `Nat`.  A C++ expression whose
evaluation is undefined behaviour (division by zero, reading a mark index
that is out of range) is modelled by `Option`: `none` means the C++ call
does not complete with a value.  Unsigned wrap-around of `size_t`
subtraction is modelled explicitly modulo `2 ^ 64`.
-/

namespace DB

/-- The tail of `computeIndexGranularityForBlock`
(`MergeTreeIndexGranularity.cpp`, lines 107-117): unless the whole block is
one granule, clamp to the fixed granularity, then floor a computed 0 to 1. -/
def clampAndFloor (fixed_index_granularity_rows : Nat)
    (blocks_are_granules : Bool) (g : Nat) : Nat :=
  let clamped :=
    if !blocks_are_granules then min fixed_index_granularity_rows g else g
  if clamped = 0 then 1 else clamped

lemma clampAndFloor_pos (f g : Nat) (b : Bool) : 1 ≤ clampAndFloor f b g := by
  unfold clampAndFloor
  dsimp only
  split <;> split <;> omega

lemma clampAndFloor_le (f g : Nat) : clampAndFloor f false g ≤ max f 1 := by
  have hmin := Nat.min_le_left f g
  unfold clampAndFloor
  dsimp only
  simp only [Bool.not_false, if_true]
  split <;> omega

/-- Translation of `computeIndexGranularityForBlock`
(`MergeTreeIndexGranularity.cpp`, lines 75-118).  The two divisions the
source performs unguarded — `bytes_in_block / index_granularity_bytes`
(reached when `bytes_in_block >= index_granularity_bytes`) and
`bytes_in_block / rows_in_block` (reached otherwise) — are division by
zero, hence undefined behaviour, when their divisor is zero; those inputs
yield `none`.  The final clamp and the floor-to-1 of the source are applied
to the branch result via `Option.map`. -/
def computeIndexGranularityForBlock
    (rows_in_block bytes_in_block index_granularity_bytes
      fixed_index_granularity_rows : Nat)
    (blocks_are_granules can_use_adaptive_index_granularity : Bool) :
    Option Nat :=
  (if !can_use_adaptive_index_granularity then
    some fixed_index_granularity_rows
  else if blocks_are_granules then
    some rows_in_block
  else if index_granularity_bytes ≤ bytes_in_block then
    if index_granularity_bytes = 0 then
      none
    else
      some (rows_in_block / (bytes_in_block / index_granularity_bytes))
  else
    if rows_in_block = 0 then
      none
    else
      some (index_granularity_bytes / max (bytes_in_block / rows_in_block) 1)
  ).map (clampAndFloor fixed_index_granularity_rows blocks_are_granules)

/-- Claim C6: on `rows_in_block = 100`, `bytes_in_block = 1000`,
`index_granularity_bytes = 100`, `fixed_index_granularity_rows = 50`,
`blocks_are_granules = false`, adaptive enabled, the function takes the
bytes-at-or-above-threshold branch (`1000 ≥ 100`), computes
`granules = 1000 / 100 = 10`, `rows per granule = 100 / 10 = 10`, clamps to
`min 50 10 = 10`, and returns `10`. -/
theorem computeIndexGranularityForBlock_boundary_case :
    (100 ≤ 1000 ∧ 1000 / 100 = 10 ∧ 100 / 10 = 10 ∧ min 50 10 = 10) ∧
    computeIndexGranularityForBlock 100 1000 100 50 false true = some 10 := by
  decide

/-- Claim C1 (counterexample): with `index_granularity_bytes = 0`, adaptive
mode enabled, and `blocks_are_granules = false`, the call does not complete
with any value (the source divides `bytes_in_block` by zero), refuting that
for every input the function returns a value of at least 1. -/
theorem computeIndexGranularityForBlock_zero_threshold_cex :
    computeIndexGranularityForBlock 100 1000 0 50 false true = none := by
  decide

/-- Claim C1 (amended): whenever `computeIndexGranularityForBlock` completes
with a value, that value is at least 1 (the final floor raises a computed 0
to 1); but when adaptive mode is enabled, `blocks_are_granules` is false and
`index_granularity_bytes = 0`, the unguarded division by zero means the call
completes with no value at all. -/
theorem computeIndexGranularityForBlock_pos
    (rows_in_block bytes_in_block index_granularity_bytes
      fixed_index_granularity_rows : Nat)
    (blocks_are_granules can_use_adaptive_index_granularity : Bool) :
    (∀ v, computeIndexGranularityForBlock rows_in_block bytes_in_block
        index_granularity_bytes fixed_index_granularity_rows
        blocks_are_granules can_use_adaptive_index_granularity = some v →
      1 ≤ v) ∧
    (can_use_adaptive_index_granularity = true → blocks_are_granules = false →
      index_granularity_bytes = 0 →
      computeIndexGranularityForBlock rows_in_block bytes_in_block
        index_granularity_bytes fixed_index_granularity_rows
        blocks_are_granules can_use_adaptive_index_granularity = none) := by
  constructor
  · intro v hv
    unfold computeIndexGranularityForBlock at hv
    rw [Option.map_eq_some'] at hv
    obtain ⟨g, _, hg⟩ := hv
    rw [← hg]
    exact clampAndFloor_pos _ _ _
  · intro ha hb hz
    subst ha hb hz
    unfold computeIndexGranularityForBlock
    simp

/-- Witness for `computeIndexGranularityForBlock_pos` at concrete inputs:
the completing branch at `(100, 1000, 200, 50, false, true)` returns
`some 20` with `1 ≤ 20`, and the diverging branch at
`(2, 10, 0, 50, false, true)` returns `none`. -/
theorem computeIndexGranularityForBlock_pos_witness :
    (1 : Nat) ≤ 20 ∧
    computeIndexGranularityForBlock 2 10 0 50 false true = none :=
  ⟨(computeIndexGranularityForBlock_pos 100 1000 200 50 false true).1 20 (by decide),
   (computeIndexGranularityForBlock_pos 2 10 0 50 false true).2 rfl rfl rfl⟩

/-- Claim C2 (counterexample): with `fixed_index_granularity_rows = 0` and
`blocks_are_granules = false`, the function returns `some 1`, and `1 ≤ 0`
fails, refuting that the result never exceeds the configured ceiling. -/
theorem computeIndexGranularityForBlock_ceiling_cex :
    computeIndexGranularityForBlock 10 10 100 0 false false = some 1 ∧
    ¬ ((1 : Nat) ≤ 0) := by
  decide

/-- Claim C2 (amended): when `blocks_are_granules` is false and the call
completes with a value, that value is at most
`max fixed_index_granularity_rows 1`: the clamp bounds it by the configured
ceiling, except that the final floor raises a computed 0 to 1, so for
`fixed_index_granularity_rows = 0` the result is 1. -/
theorem computeIndexGranularityForBlock_le_fixed
    (rows_in_block bytes_in_block index_granularity_bytes
      fixed_index_granularity_rows : Nat)
    (can_use_adaptive_index_granularity : Bool) (v : Nat)
    (hv : computeIndexGranularityForBlock rows_in_block bytes_in_block
        index_granularity_bytes fixed_index_granularity_rows
        false can_use_adaptive_index_granularity = some v) :
    v ≤ max fixed_index_granularity_rows 1 := by
  unfold computeIndexGranularityForBlock at hv
  rw [Option.map_eq_some'] at hv
  obtain ⟨g, _, hg⟩ := hv
  rw [← hg]
  exact clampAndFloor_le _ _

/-- Witness for `computeIndexGranularityForBlock_le_fixed`: at
`(8, 8, 100, 50, adaptive)` the function returns `some 50` and `50 ≤ max 50 1`. -/
theorem computeIndexGranularityForBlock_le_fixed_witness :
    (50 : Nat) ≤ max 50 1 :=
  computeIndexGranularityForBlock_le_fixed 8 8 100 50 true 50 (by decide)

/-- `size_t` subtraction by a small constant `b ≤ 2 ^ 64`, wrapping modulo
`2 ^ 64` exactly as the unsigned arithmetic of the source does. -/
def sub64 (a b : Nat) : Nat :=
  (a + (2 ^ 64 - b)) % 2 ^ 64

lemma sub64_eq_sub (a b : Nat) (hb : b ≤ a) (ha : a < 2 ^ 64) :
    sub64 a b = a - b := by
  have h1 : a + (2 ^ 64 - b) = (a - b) + 2 ^ 64 := by omega
  rw [sub64, h1, Nat.add_mod_right, Nat.mod_eq_of_lt (by omega)]

/-- Modelled from the spec: `MergeTreeIndexGranularityAdaptive` (its own
source file is not part of the material under study) stores an explicit
growable sequence of per-mark row counts. -/
structure MergeTreeIndexGranularityAdaptive where
  marks : List Nat
  deriving DecidableEq

/-- Modelled from the spec: number of marks of an adaptive table,
`getMarksCount()`. -/
def getMarksCount (t : MergeTreeIndexGranularityAdaptive) : Nat :=
  t.marks.length

/-- Modelled from the spec: `getMarkRows(i)` of an adaptive table returns
the row count stored for mark `i`; an out-of-range index is undefined
behaviour in the source, modelled as `none`. -/
def getMarkRows (t : MergeTreeIndexGranularityAdaptive) (mark_index : Nat) :
    Option Nat :=
  t.marks.get? mark_index

/-- Modelled from the spec: `getTotalRows()` is the cumulative row count of
all marks. -/
def getTotalRows (t : MergeTreeIndexGranularityAdaptive) : Nat :=
  t.marks.sum

/-- Modelled from the spec: a final mark is a trailing zero-row sentinel,
so `hasFinalMark()` holds exactly when the table is non-empty and its last
stored mark covers zero rows. -/
def hasFinalMark (t : MergeTreeIndexGranularityAdaptive) : Bool :=
  match t.marks.getLast? with
  | some last_mark_rows => last_mark_rows == 0
  | none => false

/-- Modelled from the spec: `empty()` of the table interface (declared in
the header, which is not part of the material under study) holds when the
table has no marks. -/
def empty (t : MergeTreeIndexGranularityAdaptive) : Bool :=
  getMarksCount t == 0

/-- Modelled from the spec: `appendMark(rows_count)` pushes one granule of
the given size. -/
def appendMark (t : MergeTreeIndexGranularityAdaptive) (rows_count : Nat) :
    MergeTreeIndexGranularityAdaptive :=
  ⟨t.marks ++ [rows_count]⟩

/-- Modelled from the spec: `adjustLastMark(rows_count)` overwrites the row
count of the most recently appended granule (callers only invoke it on a
non-empty table). -/
def adjustLastMark (t : MergeTreeIndexGranularityAdaptive) (rows_count : Nat) :
    MergeTreeIndexGranularityAdaptive :=
  ⟨t.marks.dropLast ++ [rows_count]⟩

/-- Modelled from the spec: `getRowsCountInRange(begin, end)` sums
`getMarkRows` over the half-open mark interval and is undefined when `end`
exceeds `getMarksCount()`. -/
def getRowsCountInRange (t : MergeTreeIndexGranularityAdaptive)
    (begin_mark end_mark : Nat) : Option Nat :=
  if end_mark ≤ getMarksCount t then
    some (((t.marks.drop begin_mark).take (end_mark - begin_mark)).sum)
  else
    none

/-- A half-open interval of mark indices (`MarkRange` of the source; its
`begin`/`end` members are written `begin_`/`end_` here). -/
structure MarkRange where
  begin_ : Nat
  end_ : Nat
  deriving DecidableEq

/-- `MarkRanges`: an ordered sequence of `MarkRange`. -/
abbrev MarkRanges := List MarkRange

/-- Translation of the `MarkRange` overload of `getRowsCountInRange`
(`MergeTreeIndexGranularity.cpp`, lines 25-28). -/
def getRowsCountInRangeOfRange (t : MergeTreeIndexGranularityAdaptive)
    (range : MarkRange) : Option Nat :=
  getRowsCountInRange t range.begin_ range.end_

/-- Translation of `getRowsCountInRanges`
(`MergeTreeIndexGranularity.cpp`, lines 30-36): a running total over the
ranges, each summand obtained from the `MarkRange` overload; an undefined
per-range call makes the whole call undefined. -/
def getRowsCountInRanges (t : MergeTreeIndexGranularityAdaptive)
    (ranges : MarkRanges) : Option Nat :=
  ranges.foldl
    (fun total range =>
      match total, getRowsCountInRangeOfRange t range with
      | some acc, some v => some (acc + v)
      | _, _ => none)
    (some 0)

/-- Translation of `getMarksCountWithoutFinal`
(`MergeTreeIndexGranularity.cpp`, lines 38-44). -/
def getMarksCountWithoutFinal (t : MergeTreeIndexGranularityAdaptive) : Nat :=
  let total := getMarksCount t
  if total = 0 then
    total
  else
    total - (if hasFinalMark t then 1 else 0)

/-- Translation of `getLastMarkRows`
(`MergeTreeIndexGranularity.cpp`, lines 46-49): reads the mark at index
`getMarksCount() - 1`, the subtraction wrapping as unsigned arithmetic. -/
def getLastMarkRows (t : MergeTreeIndexGranularityAdaptive) : Option Nat :=
  getMarkRows t (sub64 (getMarksCount t) 1)

/-- Translation of `getLastNonFinalMarkRows`
(`MergeTreeIndexGranularity.cpp`, lines 51-57). -/
def getLastNonFinalMarkRows (t : MergeTreeIndexGranularityAdaptive) :
    Option Nat :=
  match getLastMarkRows t with
  | none => none
  | some last_mark_rows =>
    if last_mark_rows ≠ 0 then
      some last_mark_rows
    else
      getMarkRows t (sub64 (getMarksCount t) 2)

/-- Outcomes of `addRowsToLastMark` other than normal return: the
`LOGICAL_ERROR` exception thrown on a final mark, and (unreachably) the
undefined read of the last mark of an empty table. -/
inductive AddRowsError where
  | logicalError
  | undefinedRead
  deriving DecidableEq

/-- Translation of `addRowsToLastMark`
(`MergeTreeIndexGranularity.cpp`, lines 59-73): throw on a final mark,
append on an empty table, otherwise adjust the last mark to its current
row count plus `rows_count`.  The `undefinedRead` arm models the undefined
`getLastMarkRows()` call on an empty table; it is unreachable because
emptiness was checked in the branch before. -/
def addRowsToLastMark (t : MergeTreeIndexGranularityAdaptive)
    (rows_count : Nat) :
    Except AddRowsError MergeTreeIndexGranularityAdaptive :=
  if hasFinalMark t then
    Except.error AddRowsError.logicalError
  else if empty t then
    Except.ok (appendMark t rows_count)
  else
    match getLastMarkRows t with
    | some last_mark_rows =>
      Except.ok (adjustLastMark t (last_mark_rows + rows_count))
    | none => Except.error AddRowsError.undefinedRead

/-- The table a caller observes after `addRowsToLastMark` finishes: the
updated table on normal return, and — because the source throws before any
mutating statement — the untouched receiver when an exception propagates. -/
def tableAfterAddRowsToLastMark (t : MergeTreeIndexGranularityAdaptive)
    (rows_count : Nat) : MergeTreeIndexGranularityAdaptive :=
  match addRowsToLastMark t rows_count with
  | Except.ok updated => updated
  | Except.error _ => t

lemma hasFinalMark_iff (t : MergeTreeIndexGranularityAdaptive) :
    hasFinalMark t = true ↔ t.marks.getLast? = some 0 := by
  unfold hasFinalMark
  cases h : t.marks.getLast? with
  | none => simp
  | some v => simp [beq_iff_eq]

lemma empty_eq_false_iff (t : MergeTreeIndexGranularityAdaptive) :
    empty t = false ↔ t.marks ≠ [] := by
  unfold empty getMarksCount
  simp [List.length_eq_zero]

lemma getMarkRows_isSome (t : MergeTreeIndexGranularityAdaptive) (i : Nat) :
    (getMarkRows t i).isSome = true ↔ i < getMarksCount t := by
  unfold getMarkRows getMarksCount
  constructor
  · intro h
    by_contra hc
    rw [List.get?_eq_none.mpr (by omega)] at h
    simp at h
  · intro h
    rw [List.get?_eq_get h]
    simp

lemma getLastMarkRows_eq_getLast (t : MergeTreeIndexGranularityAdaptive)
    (hlen : getMarksCount t < 2 ^ 64) :
    getLastMarkRows t = t.marks.getLast? := by
  unfold getLastMarkRows getMarkRows
  rcases hm : t.marks with _ | ⟨a, l⟩
  · rw [List.get?_eq_none.mpr (by simp)]
    simp
  · unfold getMarksCount at hlen ⊢
    rw [hm] at hlen ⊢
    rw [sub64_eq_sub _ _ (by simp) hlen]
    rw [List.get?_eq_getElem?]
    exact (List.getLast?_eq_getElem? _).symm

lemma marks_ne_nil_of_getLastMarkRows_some (t : MergeTreeIndexGranularityAdaptive)
    (hlen : getMarksCount t < 2 ^ 64) {v : Nat}
    (h : getLastMarkRows t = some v) : t.marks ≠ [] := by
  intro hnil
  rw [getLastMarkRows_eq_getLast t hlen, hnil] at h
  simp at h

/-- Claim C5: `getMarksCountWithoutFinal()` equals `getMarksCount()` minus
one when a final mark is present and `getMarksCount()` otherwise; a final
mark moreover forces at least one mark, so the subtraction is exact. -/
theorem getMarksCountWithoutFinal_spec (t : MergeTreeIndexGranularityAdaptive) :
    getMarksCountWithoutFinal t =
      (if hasFinalMark t then getMarksCount t - 1 else getMarksCount t) ∧
    (hasFinalMark t = true → 1 ≤ getMarksCount t) := by
  obtain ⟨marks⟩ := t
  rcases marks with _ | ⟨a, l⟩
  · constructor
    · simp [getMarksCountWithoutFinal, getMarksCount, hasFinalMark]
    · intro h
      rw [hasFinalMark_iff] at h
      simp at h
  · have htotal : getMarksCount ⟨a :: l⟩ ≠ 0 := by
      simp [getMarksCount]
    constructor
    · unfold getMarksCountWithoutFinal
      dsimp only
      rw [if_neg htotal]
      cases hf : hasFinalMark ⟨a :: l⟩ <;> simp
    · intro _
      simp [getMarksCount]

/-- Witness for `getMarksCountWithoutFinal_spec` at the two-mark table
`[2, 0]`, whose trailing zero mark is a final mark. -/
theorem getMarksCountWithoutFinal_spec_witness :
    getMarksCountWithoutFinal ⟨[2, 0]⟩ =
      (if hasFinalMark ⟨[2, 0]⟩ then getMarksCount ⟨[2, 0]⟩ - 1
       else getMarksCount ⟨[2, 0]⟩) ∧
    1 ≤ getMarksCount ⟨[2, 0]⟩ :=
  ⟨(getMarksCountWithoutFinal_spec ⟨[2, 0]⟩).1,
   (getMarksCountWithoutFinal_spec ⟨[2, 0]⟩).2 (by decide)⟩

/-- Claim C3: `addRowsToLastMark(n)` throws the logic error exactly when a
final mark is present; on an empty table without a final mark it returns
the result of `appendMark(n)`; on a non-empty table without a final mark it
returns the result of `adjustLastMark(getLastMarkRows() + n)`. -/
theorem addRowsToLastMark_spec (t : MergeTreeIndexGranularityAdaptive)
    (rows_count : Nat) (hlen : getMarksCount t < 2 ^ 64) :
    ((addRowsToLastMark t rows_count =
        Except.error AddRowsError.logicalError) ↔ hasFinalMark t = true) ∧
    (hasFinalMark t = false → empty t = true →
      addRowsToLastMark t rows_count = Except.ok (appendMark t rows_count)) ∧
    (hasFinalMark t = false → empty t = false →
      ∃ last_mark_rows, getLastMarkRows t = some last_mark_rows ∧
        addRowsToLastMark t rows_count =
          Except.ok (adjustLastMark t (last_mark_rows + rows_count))) := by
  cases hf : hasFinalMark t with
  | true =>
    refine ⟨by simp [addRowsToLastMark, hf], ?_, ?_⟩
    · intro hff _
      cases hff
    · intro hff _
      cases hff
  | false =>
    cases he : empty t with
    | true =>
      refine ⟨?_, ?_, ?_⟩
      · simp [addRowsToLastMark, hf, he]
      · intro _ _
        simp [addRowsToLastMark, hf, he]
      · intro _ hee
        cases hee
    | false =>
      have hne : t.marks ≠ [] := (empty_eq_false_iff t).mp he
      have hsome : ∃ v, getLastMarkRows t = some v := by
        rw [getLastMarkRows_eq_getLast t hlen]
        rcases hg : t.marks.getLast? with _ | v
        · exact absurd (List.getLast?_eq_none_iff.mp hg) hne
        · exact ⟨v, rfl⟩
      obtain ⟨v, hv⟩ := hsome
      refine ⟨?_, ?_, ?_⟩
      · simp [addRowsToLastMark, hf, he, hv]
      · intro _ hee
        cases hee
      · intro _ _
        exact ⟨v, hv, by simp [addRowsToLastMark, hf, he, hv]⟩

/-- Witness for `addRowsToLastMark_spec`: on the one-mark table `[5]`,
adding 3 rows adjusts the last mark to `5 + 3`. -/
theorem addRowsToLastMark_spec_witness :
    addRowsToLastMark ⟨[5]⟩ 3 = Except.ok (adjustLastMark ⟨[5]⟩ (5 + 3)) := by
  obtain ⟨last_mark_rows, hl, he⟩ :=
    (addRowsToLastMark_spec ⟨[5]⟩ 3 (by decide)).2.2 (by decide) (by decide)
  have h5 : getLastMarkRows ⟨[5]⟩ = some 5 := by decide
  rw [h5] at hl
  injection hl with hl5
  rw [← hl5] at he
  exact he

/-- Claim C9: when a final mark is present, `addRowsToLastMark` throws
before performing any mutation, so every observable of the table —
mark count, total rows, each mark's row count, the final-mark flag — is
unchanged after the failed call. -/
theorem addRowsToLastMark_error_atomic (t : MergeTreeIndexGranularityAdaptive)
    (rows_count : Nat) (h : hasFinalMark t = true) :
    addRowsToLastMark t rows_count = Except.error AddRowsError.logicalError ∧
    tableAfterAddRowsToLastMark t rows_count = t ∧
    getMarksCount (tableAfterAddRowsToLastMark t rows_count) = getMarksCount t ∧
    getTotalRows (tableAfterAddRowsToLastMark t rows_count) = getTotalRows t ∧
    (∀ i, getMarkRows (tableAfterAddRowsToLastMark t rows_count) i =
      getMarkRows t i) ∧
    hasFinalMark (tableAfterAddRowsToLastMark t rows_count) = hasFinalMark t := by
  have hres : addRowsToLastMark t rows_count =
      Except.error AddRowsError.logicalError := by
    simp [addRowsToLastMark, h]
  have hafter : tableAfterAddRowsToLastMark t rows_count = t := by
    unfold tableAfterAddRowsToLastMark
    rw [hres]
  exact ⟨hres, hafter, by rw [hafter], by rw [hafter],
    fun i => by rw [hafter], by rw [hafter]⟩

/-- Witness for `addRowsToLastMark_error_atomic`: the sealed table `[3, 0]`
rejects `addRowsToLastMark 5` and is observably unchanged. -/
theorem addRowsToLastMark_error_atomic_witness :
    addRowsToLastMark ⟨[3, 0]⟩ 5 = Except.error AddRowsError.logicalError ∧
    tableAfterAddRowsToLastMark ⟨[3, 0]⟩ 5 = ⟨[3, 0]⟩ :=
  ⟨(addRowsToLastMark_error_atomic ⟨[3, 0]⟩ 5 (by decide)).1,
   (addRowsToLastMark_error_atomic ⟨[3, 0]⟩ 5 (by decide)).2.1⟩

/-- Claim C7: on a table holding at least one data mark,
`getLastNonFinalMarkRows()` returns `getLastMarkRows()` when that is
non-zero; when the last mark is the zero-row final sentinel the table has
at least two marks and the row count of mark `getMarksCount() - 2` is
returned. -/
theorem getLastNonFinalMarkRows_spec (t : MergeTreeIndexGranularityAdaptive)
    (hlen : getMarksCount t < 2 ^ 64)
    (hdata : ∃ r ∈ t.marks, r ≠ 0) :
    (∀ v, getLastMarkRows t = some v → v ≠ 0 →
      getLastNonFinalMarkRows t = some v) ∧
    (getLastMarkRows t = some 0 →
      2 ≤ getMarksCount t ∧
      getLastNonFinalMarkRows t = getMarkRows t (getMarksCount t - 2)) := by
  constructor
  · intro v hv hv0
    unfold getLastNonFinalMarkRows
    rw [hv]
    simp [hv0]
  · intro h0
    have hlen2 : 2 ≤ getMarksCount t := by
      obtain ⟨marks⟩ := t
      rcases marks with _ | ⟨a, l⟩
      · rw [getLastMarkRows_eq_getLast _ hlen] at h0
        simp at h0
      · rcases l with _ | ⟨b, l2⟩
        · rw [getLastMarkRows_eq_getLast _ hlen] at h0
          simp at h0
          obtain ⟨r, hr, hrn⟩ := hdata
          simp at hr
          omega
        · simp [getMarksCount]
    refine ⟨hlen2, ?_⟩
    unfold getLastNonFinalMarkRows
    rw [h0]
    simp only [ne_eq, not_true_eq_false, if_false]
    rw [sub64_eq_sub _ _ (by omega) (by omega)]

/-- Witness for `getLastNonFinalMarkRows_spec`: on the sealed table
`[4, 0]` the sentinel is skipped and the second-to-last mark is returned. -/
theorem getLastNonFinalMarkRows_spec_witness :
    2 ≤ getMarksCount ⟨[4, 0]⟩ ∧
    getLastNonFinalMarkRows ⟨[4, 0]⟩ =
      getMarkRows ⟨[4, 0]⟩ (getMarksCount ⟨[4, 0]⟩ - 2) :=
  (getLastNonFinalMarkRows_spec ⟨[4, 0]⟩ (by decide) (by decide)).2 (by decide)

/-- Claim C10: `getLastMarkRows()` is well-defined exactly on non-empty
tables — on an empty table the unsigned `getMarksCount() - 1` wraps to
`2 ^ 64 - 1`, an out-of-range index — and when the last mark is the
zero-row sentinel, `getLastNonFinalMarkRows()` is well-defined exactly when
the table has at least two marks. -/
theorem getLastMarkRows_partiality (t : MergeTreeIndexGranularityAdaptive)
    (hlen : getMarksCount t < 2 ^ 64) :
    ((getLastMarkRows t).isSome = true ↔ 1 ≤ getMarksCount t) ∧
    (getMarksCount t = 0 →
      sub64 (getMarksCount t) 1 = 2 ^ 64 - 1 ∧ getLastMarkRows t = none) ∧
    (getLastMarkRows t = some 0 →
      ((getLastNonFinalMarkRows t).isSome = true ↔ 2 ≤ getMarksCount t)) := by
  refine ⟨?_, ?_, ?_⟩
  · rw [getLastMarkRows_eq_getLast t hlen]
    rw [List.getLast?_isSome]
    unfold getMarksCount
    constructor
    · intro h
      have := List.length_pos.mpr h
      omega
    · intro h
      exact List.length_pos.mp (by omega)
  · intro hc
    constructor
    · rw [hc]
      decide
    · rw [getLastMarkRows_eq_getLast t hlen]
      unfold getMarksCount at hc
      rw [List.length_eq_zero.mp hc]
      simp
  · intro h0
    have h1 : t.marks ≠ [] := marks_ne_nil_of_getLastMarkRows_some t hlen h0
    have h1' : 1 ≤ getMarksCount t := by
      unfold getMarksCount
      exact List.length_pos.mpr h1
    unfold getLastNonFinalMarkRows
    rw [h0]
    simp only [ne_eq, not_true_eq_false, if_false]
    by_cases h2 : 2 ≤ getMarksCount t
    · rw [sub64_eq_sub _ _ h2 hlen]
      rw [getMarkRows_isSome]
      constructor
      · intro _
        exact h2
      · intro _
        omega
    · have hc1 : getMarksCount t = 1 := by omega
      rw [hc1]
      rw [(by decide : sub64 1 2 = 2 ^ 64 - 1)]
      rw [getMarkRows_isSome, hc1]
      constructor
      · intro h
        omega
      · intro h
        omega

/-- Witness for `getLastMarkRows_partiality` at the sealed table `[7, 0]`. -/
theorem getLastMarkRows_partiality_witness :
    ((getLastMarkRows ⟨[7, 0]⟩).isSome = true ↔ 1 ≤ getMarksCount ⟨[7, 0]⟩) ∧
    ((getLastNonFinalMarkRows ⟨[7, 0]⟩).isSome = true ↔
      2 ≤ getMarksCount ⟨[7, 0]⟩) :=
  ⟨(getLastMarkRows_partiality ⟨[7, 0]⟩ (by decide)).1,
   (getLastMarkRows_partiality ⟨[7, 0]⟩ (by decide)).2.2 (by decide)⟩

lemma getRowsCountInRanges_aux (t : MergeTreeIndexGranularityAdaptive)
    (ranges : List MarkRange) (acc : Nat)
    (h : ∀ r ∈ ranges, r.end_ ≤ getMarksCount t) :
    List.foldl
      (fun total range =>
        match total, getRowsCountInRangeOfRange t range with
        | some a, some v => some (a + v)
        | _, _ => none)
      (some acc) ranges
    = some (acc + (ranges.map
        (fun r => (getRowsCountInRange t r.begin_ r.end_).getD 0)).sum) := by
  induction ranges generalizing acc with
  | nil => simp
  | cons r rs ih =>
    have hr : r.end_ ≤ getMarksCount t := h r (List.mem_cons_self r rs)
    have hv2 : getRowsCountInRange t r.begin_ r.end_
        = some (((t.marks.drop r.begin_).take (r.end_ - r.begin_)).sum) := by
      unfold getRowsCountInRange
      rw [if_pos hr]
    have hv : getRowsCountInRangeOfRange t r
        = some (((t.marks.drop r.begin_).take (r.end_ - r.begin_)).sum) := by
      unfold getRowsCountInRangeOfRange
      exact hv2
    rw [List.foldl_cons, List.map_cons, List.sum_cons]
    rw [hv]
    dsimp only
    rw [ih _ (fun x hx => h x (List.mem_cons_of_mem r hx))]
    rw [hv2]
    simp [Nat.add_assoc]

/-- Claim C8: `getRowsCountInRanges` equals the sum over the ranges of
`getRowsCountInRange(range.begin, range.end)` whenever every range bound is
within `getMarksCount()`; it is 0 on the empty sequence; and the
`MarkRange` overload of `getRowsCountInRange` agrees with the two-index
form on the range's bounds. -/
theorem getRowsCountInRanges_spec (t : MergeTreeIndexGranularityAdaptive)
    (ranges : MarkRanges) :
    ((∀ r ∈ ranges, r.end_ ≤ getMarksCount t) →
      getRowsCountInRanges t ranges =
        some ((ranges.map
          (fun r => (getRowsCountInRange t r.begin_ r.end_).getD 0)).sum)) ∧
    getRowsCountInRanges t ([] : MarkRanges) = some 0 ∧
    (∀ range : MarkRange,
      getRowsCountInRangeOfRange t range =
        getRowsCountInRange t range.begin_ range.end_) := by
  refine ⟨?_, rfl, fun range => rfl⟩
  intro h
  unfold getRowsCountInRanges
  rw [getRowsCountInRanges_aux t ranges 0 h]
  simp

/-- Witness for `getRowsCountInRanges_spec`: on the table `[1, 2, 3]` with
ranges `[0, 2)` and `[1, 3)` the total is the sum of the per-range counts. -/
theorem getRowsCountInRanges_spec_witness :
    getRowsCountInRanges ⟨[1, 2, 3]⟩ [⟨0, 2⟩, ⟨1, 3⟩] =
      some ((([⟨0, 2⟩, ⟨1, 3⟩] : MarkRanges).map
        (fun r => (getRowsCountInRange ⟨[1, 2, 3]⟩ r.begin_ r.end_).getD 0)).sum) :=
  (getRowsCountInRanges_spec ⟨[1, 2, 3]⟩ [⟨0, 2⟩, ⟨1, 3⟩]).1 (by decide)

/-- Storage layout of a data part (`MergeTreeDataPartType` of the source,
restricted to the layouts the factory distinguishes). -/
inductive MergeTreeDataPartType where
  | Wide
  | Compact
  deriving DecidableEq

/-- The part's mark format: whether it is adaptive-capable, and the part's
storage layout. -/
structure MarkType where
  adaptive : Bool
  part_type : MergeTreeDataPartType
  deriving DecidableEq

/-- The granularity-relevant slice of `MergeTreeIndexGranularityInfo`. -/
structure MergeTreeIndexGranularityInfo where
  mark_type : MarkType
  deriving DecidableEq

/-- The three `MergeTreeSettings` read by the factory. -/
structure MergeTreeSettings where
  index_granularity : Nat
  index_granularity_bytes : Nat
  use_const_adaptive_granularity : Bool
  deriving DecidableEq

/-- The table returned by the factory: an (empty) adaptive table, or a
constant table pre-seeded with a computed stride. -/
inductive MergeTreeIndexGranularityPtr where
  | adaptive (table : MergeTreeIndexGranularityAdaptive)
  | constant (computed_granularity : Nat)
  deriving DecidableEq

/-- Translation of `createMergeTreeIndexGranularity`
(`MergeTreeIndexGranularity.cpp`, lines 120-143). -/
def createMergeTreeIndexGranularity
    (rows_in_block bytes_in_block : Nat)
    (settings : MergeTreeSettings)
    (info : MergeTreeIndexGranularityInfo)
    (blocks_are_granules : Bool) : Option MergeTreeIndexGranularityPtr :=
  let use_adaptive_granularity := info.mark_type.adaptive
  let use_const_adaptive_granularity := settings.use_const_adaptive_granularity
  let is_compact_part :=
    info.mark_type.part_type == MergeTreeDataPartType.Compact
  if blocks_are_granules || is_compact_part ||
      (use_adaptive_granularity && !use_const_adaptive_granularity) then
    some (MergeTreeIndexGranularityPtr.adaptive ⟨[]⟩)
  else
    (computeIndexGranularityForBlock rows_in_block bytes_in_block
        settings.index_granularity_bytes settings.index_granularity
        blocks_are_granules use_adaptive_granularity).map
      MergeTreeIndexGranularityPtr.constant

/-- Claim C4: the factory returns an empty adaptive table exactly when
`blocks_are_granules` is set, or the part layout is compact, or the mark
format is adaptive-capable and `use_const_adaptive_granularity` is not set;
in every other case it returns a constant table pre-seeded with the stride
`computeIndexGranularityForBlock` computes from the block's rows and bytes
and the configured `index_granularity_bytes` and `index_granularity`. -/
theorem createMergeTreeIndexGranularity_spec
    (rows_in_block bytes_in_block : Nat) (settings : MergeTreeSettings)
    (info : MergeTreeIndexGranularityInfo) (blocks_are_granules : Bool) :
    (createMergeTreeIndexGranularity rows_in_block bytes_in_block settings
        info blocks_are_granules =
      some (MergeTreeIndexGranularityPtr.adaptive ⟨[]⟩) ↔
      (blocks_are_granules = true ∨
        info.mark_type.part_type = MergeTreeDataPartType.Compact ∨
        (info.mark_type.adaptive = true ∧
          settings.use_const_adaptive_granularity = false))) ∧
    (¬ (blocks_are_granules = true ∨
        info.mark_type.part_type = MergeTreeDataPartType.Compact ∨
        (info.mark_type.adaptive = true ∧
          settings.use_const_adaptive_granularity = false)) →
      createMergeTreeIndexGranularity rows_in_block bytes_in_block settings
          info blocks_are_granules =
        (computeIndexGranularityForBlock rows_in_block bytes_in_block
            settings.index_granularity_bytes settings.index_granularity
            blocks_are_granules info.mark_type.adaptive).map
          MergeTreeIndexGranularityPtr.constant) := by
  have hPiff : (blocks_are_granules ||
      (info.mark_type.part_type == MergeTreeDataPartType.Compact) ||
      (info.mark_type.adaptive && !settings.use_const_adaptive_granularity))
      = true ↔
      (blocks_are_granules = true ∨
        info.mark_type.part_type = MergeTreeDataPartType.Compact ∨
        (info.mark_type.adaptive = true ∧
          settings.use_const_adaptive_granularity = false)) := by
    simp [Bool.or_eq_true, Bool.and_eq_true, Bool.not_eq_true', beq_iff_eq,
      or_assoc]
  unfold createMergeTreeIndexGranularity
  dsimp only
  by_cases hcond : (blocks_are_granules ||
      (info.mark_type.part_type == MergeTreeDataPartType.Compact) ||
      (info.mark_type.adaptive && !settings.use_const_adaptive_granularity))
      = true
  · rw [if_pos hcond]
    constructor
    · constructor
      · intro _
        exact hPiff.mp hcond
      · intro _
        rfl
    · intro hnp
      exact absurd (hPiff.mp hcond) hnp
  · rw [if_neg hcond]
    constructor
    · constructor
      · intro h
        rcases hc : computeIndexGranularityForBlock rows_in_block bytes_in_block
            settings.index_granularity_bytes settings.index_granularity
            blocks_are_granules info.mark_type.adaptive with _ | g
        · rw [hc] at h
          simp at h
        · rw [hc] at h
          simp at h
      · intro hp
        exact absurd (hPiff.mpr hp) hcond
    · intro _
      rfl

/-- Witness for `createMergeTreeIndexGranularity_spec`: a wide,
non-adaptive part with `blocks_are_granules` unset gets a constant table
seeded from `computeIndexGranularityForBlock`. -/
theorem createMergeTreeIndexGranularity_spec_witness :
    createMergeTreeIndexGranularity 100 1000 ⟨50, 100, false⟩
        ⟨⟨false, MergeTreeDataPartType.Wide⟩⟩ false =
      (computeIndexGranularityForBlock 100 1000 100 50 false false).map
        MergeTreeIndexGranularityPtr.constant :=
  (createMergeTreeIndexGranularity_spec 100 1000 ⟨50, 100, false⟩
    ⟨⟨false, MergeTreeDataPartType.Wide⟩⟩ false).2 (by decide)

end DB
